import Mathlib

/-!
Shallow embedding of the subfs FUSE filesystem (mdlayher/subfs) and proofs
about its specification.

The embedding covers:
* the stream cache engine of `SubFile.ReadAll` (src/subFile.go) and of
  `SubFile.fetchFile` (the streaming variant of the same code base),
* the namespace builder `SubDir.ReadDir` / `SubDir.Lookup`,
* the shutdown unmount retry loop of `main` (src/subfs.go).

Strings are modelled as `List Char`, Go `int64` as `Int` (sizes in these
code paths stay far below 2^63, so wrap-around is not modelled), Go maps as
association lists or as functions to `Option`, and the fallible upstream
calls as `Except` values supplied by the caller.
-/

namespace Subfs

/-- Go strings, modelled as lists of characters. -/
abbrev Name := List Char

/-- Go byte slices; only equality of contents matters here. -/
abbrev Bytes := List Nat

/-- Association-list lookup, the model of reading a Go map. -/
def lookupA {κ ν : Type} [DecidableEq κ] : List (κ × ν) → κ → Option ν
  | [], _ => none
  | e :: t, k => if e.1 = k then some e.2 else lookupA t k

/-- Removal of a key, the model of Go `delete(m, k)`. -/
def eraseA {κ ν : Type} [DecidableEq κ] (l : List (κ × ν)) (k : κ) : List (κ × ν) :=
  l.filter fun e => decide (e.1 ≠ k)

/-- Insertion, the model of Go `m[k] = v` (an overwriting update). -/
def insertA {κ ν : Type} [DecidableEq κ] (l : List (κ × ν)) (k : κ) (v : ν) : List (κ × ν) :=
  (k, v) :: eraseA l k

/-! ### Stream cache engine: the `ReadAll` variant (src/subFile.go) -/

/-- State of the disk cache: `entries` models the global `fileCache` map
(file name to backing temp file, here recorded with the number of bytes
actually written to that file), `total` models the global `cacheTotal`
counter (src/subfs.go lines 30-34). -/
structure CacheState where
  entries : List (Name × Int)
  total : Int
  deriving DecidableEq

/-- Sum of the realized sizes of the bytes held by the current cache
entries (what the spec calls the sum of sizes of all CacheEntry records). -/
def entriesSum (l : List (Name × Int)) : Int :=
  (l.map Prod.snd).sum

/-- Cache admission in `SubFile.ReadAll` (src/subFile.go lines 136-178).
`cs` is the `-cache` flag in megabytes, `r` the realized size
(`s.Size = int64(len(file))`, line 106), `ioOk` tells whether creating and
writing the temporary file succeeded.  The three size checks happen before
the temporary file is created; each failing check returns with the state
unchanged. -/
def cacheAdmit (cs : Int) (n : Name) (r : Int) (ioOk : Bool) (st : CacheState) : CacheState :=
  if st.total > cs * 1024 * 1024 then st
  else if st.total + r > cs * 1024 * 1024 then st
  else if r > 50 * 1024 * 1024 then st
  else if ioOk then ⟨insertA st.entries n r, st.total + r⟩
  else st

/-- Lazy eviction in `SubFile.ReadAll` (src/subFile.go lines 45-62): the
entry is deleted and `cacheTotal` is decremented by `s.Size` of the call
that discovered the missing file - that is, by the declared size `d` the
file was registered with in `nameToFile`, not by the realized size that
was added at admission time. -/
def cacheEvict (n : Name) (d : Int) (st : CacheState) : CacheState :=
  ⟨eraseA st.entries n, st.total - d⟩

/-- One `ReadAll` call against the cache, as seen sequentially.  `declared`
is the `Size` field of the `SubFile` the call was made on, `realized` the
byte count the upstream stream produced, `fileMissing` whether the backing
temp file of a cache hit had been removed externally. -/
inductive CacheOp where
  | read (name : Name) (declared realized : Int) (ioOk : Bool) (fileMissing : Bool)
  deriving DecidableEq

/-- Effect of one `ReadAll` call on the cache state (src/subFile.go lines
43-180): a cache hit with the file intact changes nothing; a hit on a
vanished file evicts and then falls through to the fetch-and-admission
path; a miss goes straight to fetch and admission. -/
def cacheStep (cs : Int) (st : CacheState) : CacheOp → CacheState
  | .read n d r ioOk missing =>
    match lookupA st.entries n with
    | some _ => if missing then cacheAdmit cs n r ioOk (cacheEvict n d st) else st
    | none => cacheAdmit cs n r ioOk st

/-- Run a sequence of `ReadAll` calls from the freshly initialised cache
(`fileCache = {}`, `cacheTotal = 0`, src/subfs.go lines 71-73). -/
def runCache (cs : Int) (ops : List CacheOp) : CacheState :=
  ops.foldl (cacheStep cs) ⟨[], 0⟩

/-! ### Stream cache engine: the streaming `fetchFile` variant -/

/-- A `fileCache` entry of the streaming `fetchFile` code: whether the
backing temporary file still exists on disk, and the realized size of the
downloaded content. -/
structure FFEntry where
  onDisk : Bool
  size : Int
  deriving DecidableEq

/-- Cache state of the streaming variant, keyed by content id. -/
structure FFState where
  entries : List (Int × FFEntry)
  total : Int
  deriving DecidableEq

/-- The fetch path of `SubFile.fetchFile` (streaming variant, lines
420-549): the temporary file is created and entered into `fileCache`
before the download; after the download of `r` bytes the three admission
conditions are evaluated; when any fails the temporary file is closed and
removed from disk, but the `fileCache` map entry is not deleted and
`cacheTotal` is not changed; otherwise `cacheTotal` is incremented by the
realized size. -/
def fetchFileFetch (cs : Int) (cid : Int) (r : Int) (st : FFState) : FFState :=
  if st.total > cs * 1024 * 1024 ∨ st.total + r > cs * 1024 * 1024 ∨ r > 50 * 1024 * 1024
  then ⟨insertA st.entries cid ⟨false, r⟩, st.total⟩
  else ⟨insertA st.entries cid ⟨true, r⟩, st.total + r⟩

/-! ### FUSE-visible outcomes of a read request -/

/-- The FUSE error values the embedded code paths return. -/
inductive FuseErr where
  | enoent
  | eintr
  | erofs
  deriving DecidableEq

/-- Result of `SubFile.ReadAll` as seen by the FUSE caller (src/subFile.go
lines 38-193): if the interrupt channel fires first, the call returns
`(nil, fuse.EINTR)`; otherwise it returns whatever the fetch goroutine put
on `byteChan` - the fetched bytes on success, and `nil` with a `nil` error
when opening, reading or closing the upstream stream failed (lines 82-117
send `nil` on `byteChan` and the select returns `stream, nil`). -/
def readAllOutcome (streamResult : Except Unit Bytes) (interrupted : Bool) :
    Option Bytes × Option FuseErr :=
  if interrupted then (none, some .eintr)
  else
    match streamResult with
    | .error _ => (none, none)
    | .ok file => (some file, none)

/-- Fan-out of a completed fetch to the waiters registered on
`streamMap[s.ID]` (src/subFile.go lines 124-134): the spawned goroutine
executes a single `select` with one send of the fetched bytes (or a
10-second timeout), then closes the channel.  Each waiter performs one
receive (line 74); at most one receive pairs with the send, and every
receive after the close yields the zero value `nil`.  The result lists
what each of the `waiters` queued receivers obtains. -/
def fanOutToWaiters (file : Bytes) (waiters : Nat) : List (Option Bytes) :=
  match waiters with
  | 0 => []
  | n + 1 => some file :: List.replicate n none

/-! ### The background goroutine after the caller is interrupted -/

/-- The externally relevant steps of the background fetch goroutine. -/
inductive BgStep where
  | fetchStream
  | deliverResult
  | broadcast
  | admitCache
  deriving DecidableEq

/-- Statement sequence of the `ReadAll` fetch goroutine on its success
path (src/subFile.go lines 82-180): read the upstream stream to
completion, send the bytes on the unbuffered `byteChan`, spawn the
broadcast goroutine, run cache admission. -/
def readAllBg : List BgStep :=
  [.fetchStream, .deliverResult, .broadcast, .admitCache]

/-- Statement sequence of the main `fetchFile` goroutine on its success
path (streaming variant, lines 420-549): the delivery of bytes to the
caller happens in a separately spawned reader goroutine, so the main
sequence only downloads into the temp file and then runs admission. -/
def fetchFileBg : List BgStep :=
  [.fetchStream, .admitCache]

/-- Whether a step blocks forever once the caller has returned with
`EINTR`: a send on the unbuffered `byteChan` has no receiver then (the
interrupted `ReadAll` neither drains nor closes the channel), so the
goroutine parks on it; no other step involves `byteChan`. -/
def blocksWithoutCaller : BgStep → Bool
  | .deliverResult => true
  | _ => false

/-- The steps a background goroutine actually executes: all of them while
the caller is still waiting, otherwise only the prefix before the first
blocking step. -/
def runBg (callerWaiting : Bool) (body : List BgStep) : List BgStep :=
  body.takeWhile fun s => callerWaiting || !(blocksWithoutCaller s)

/-! ### Shutdown unmount retry loop (src/subfs.go lines 112-132) -/

/-- The `retry` constant of the unmount loop. -/
def unmountRetry : Nat := 3

/-- One pass of the unmount loop `for i := 0; i < retry+1; i++`, given the
outcome `ok i` of each unmount attempt.  Every iteration with `i > 0`
first waits three seconds; a failing attempt at `i = retry` calls
`os.Exit(1)`; a success breaks out and the process goes on to exit 0.
Returns whether the process reaches exit code 0 together with the number
of three-second waits performed.  The fuel argument bounds the recursion
and is chosen so the loop structure itself ends the recursion first. -/
def unmountGo (ok : Nat → Bool) : Nat → Nat → Bool × Nat
  | 0, _ => (true, 0)
  | fuel + 1, i =>
    let w := if i = 0 then 0 else 1
    if ok i then (true, w)
    else if i = unmountRetry then (false, w)
    else
      let r := unmountGo ok fuel (i + 1)
      (r.1, w + r.2)

/-- The whole unmount phase, starting at attempt index 0. -/
def unmountOutcome (ok : Nat → Bool) : Bool × Nat :=
  unmountGo ok (unmountRetry + 1) 0

/-! ### Namespace builder: data model -/

/-- The `SubDir` node (a directory): remote id and relative path. -/
structure SubDir where
  ID : Int
  RelPath : Name
  deriving DecidableEq

/-- The `SubFile` node of the streaming code base: remote id, creation
time (an opaque stamp here), display file name, content-kind flags and
declared size. -/
structure SubFile where
  ID : Int
  Created : Int
  FileName : Name
  IsArt : Bool
  IsVideo : Bool
  Lossless : Bool
  Size : Int
  deriving DecidableEq

/-- The global lookup tables `nameToDir` and `nameToFile`, initialised
once in `main` and only ever written by `ReadDir`. -/
structure FSState where
  nameToDir : Name → Option SubDir
  nameToFile : Name → Option SubFile

/-- Write one binding into `nameToDir` (Go `nameToDir[n] = d`). -/
def insertDir (st : FSState) (n : Name) (d : SubDir) : FSState :=
  { st with nameToDir := fun m => if m = n then some d else st.nameToDir m }

/-- Write one binding into `nameToFile` (Go `nameToFile[n] = f`). -/
def insertFile (st : FSState) (n : Name) (f : SubFile) : FSState :=
  { st with nameToFile := fun m => if m = n then some f else st.nameToFile m }

/-- The kind tag of a `fuse.Dirent`. -/
inductive DirentType where
  | dtDir
  | dtFile
  deriving DecidableEq

/-- A directory entry returned by `ReadDir`. -/
structure Dirent where
  EntName : Name
  typ : DirentType
  deriving DecidableEq

/-- Result of `SubDir.Lookup`. -/
inductive LookupResult where
  | dir (d : SubDir)
  | file (f : SubFile)
  | notFound
  deriving DecidableEq

/-- `SubDir.Lookup` (streaming variant lines 43-57, src/subfs.go lines
342-357): consult `nameToDir` first, rewriting the relative path to
`name + "/"`; fall back to `nameToFile`; otherwise `fuse.ENOENT`. -/
def lookupName (st : FSState) (n : Name) : LookupResult :=
  match st.nameToDir n with
  | some d => .dir { d with RelPath := n ++ ['/'] }
  | none =>
    match st.nameToFile n with
    | some f => .file f
    | none => .notFound

/-! ### Namespace builder: catalog responses -/

/-- A sub-directory record of a `GetMusicDirectory` response. -/
structure MusicDirectory where
  ID : Int
  Title : Name
  CoverArt : Int
  deriving DecidableEq

/-- An audio record of a `GetMusicDirectory` response. -/
structure AudioItem where
  ID : Int
  Created : Int
  Track : Int
  Artist : Name
  Title : Name
  Suffix : Name
  TranscodedSuffix : Name
  Size : Int
  DurationRaw : Int
  CoverArt : Int
  deriving DecidableEq

/-- A video record of a `GetMusicDirectory` response. -/
structure VideoItem where
  ID : Int
  Created : Int
  Title : Name
  Suffix : Name
  Size : Int
  CoverArt : Int
  deriving DecidableEq

/-- A full `GetMusicDirectory` response. -/
structure MusicDirContent where
  Directories : List MusicDirectory
  Audio : List AudioItem
  Video : List VideoItem
  deriving DecidableEq

/-- An artist record of a `GetIndexes` response. -/
structure ArtistRec where
  ID : Int
  ArtName : Name
  deriving DecidableEq

/-- One index of a `GetIndexes` response. -/
structure IndexEntry where
  Artist : List ArtistRec
  deriving DecidableEq

/-! ### Namespace builder: `ReadDir` -/

/-- The `badChars` list of characters replaced in filenames. -/
def badChars : List Char := ['/', '\\']

/-- Go `strings.Replace(s, string(b), "_", -1)` for a one-character
pattern. -/
def replaceBad (s : Name) (b : Char) : Name :=
  s.map fun c => if c = b then '_' else c

/-- The sanitisation loop `for _, b := range badChars { ... }`. -/
def sanitizeName (s : Name) : Name :=
  badChars.foldl replaceBad s

/-- Decimal digits of a natural number, as Go `fmt` renders them. -/
def natChars (n : Nat) : Name :=
  Nat.toDigits 10 n

/-- Go `fmt.Sprintf("%d", i)` for an `int64`. -/
def intChars (i : Int) : Name :=
  if i < 0 then '-' :: natChars i.natAbs else natChars i.toNat

/-- Go `fmt.Sprintf("%02d", i)`: zero-padded to width two. -/
def format02d (i : Int) : Name :=
  if i < 0 then '-' :: natChars i.natAbs
  else if i < 10 then '0' :: natChars i.toNat
  else natChars i.toNat

/-- The local `unique` closure of `ReadDir` (streaming variant lines
106-122): rejects the id 0 and any id already collected. -/
def uniqueId (i : Int) (slice : List Int) : Bool :=
  if i = 0 then false else if slice.contains i then false else true

/-- The cover-art accumulation `if unique(id, coverArt) { coverArt =
append(coverArt, id) }`. -/
def addCover (i : Int) (l : List Int) : List Int :=
  if uniqueId i l then l ++ [i] else l

/-- Loop state of `ReadDir`: lookup tables, `directories` entry list and
the collected `coverArt` ids. -/
structure ListAcc where
  st : FSState
  entries : List Dirent
  coverArt : List Int

/-- Loop body over `content.Directories` (streaming variant lines
127-153): sanitize the title, emit a directory entry, register the
`SubDir` under the sanitized title with path parent-path + title, and
collect its cover art. -/
def dirStep (parent : SubDir) (acc : ListAcc) (dir : MusicDirectory) : ListAcc :=
  let title := sanitizeName dir.Title
  { st := insertDir acc.st title ⟨dir.ID, parent.RelPath ++ title⟩
    entries := acc.entries ++ [⟨title, .dtDir⟩]
    coverArt := addCover dir.CoverArt acc.coverArt }

/-- The separator `" - "` of the audio filename format. -/
def sepDash : Name := [' ', '-', ' ']

/-- Go `fmt.Sprintf("%02d - %s - %s.%s", a.Track, a.Artist, a.Title,
suffix)`, before sanitisation. -/
def audioFormatRaw (a : AudioItem) (suffix : Name) : Name :=
  format02d a.Track ++ sepDash ++ a.Artist ++ sepDash ++ a.Title ++ '.' :: suffix

/-- The two transcode variants considered for an audio record (streaming
variant lines 159-165): the raw suffix with its reported size, and the
transcoded suffix with size 0. -/
def transcodeVariants (a : AudioItem) : List (Name × Int) :=
  [(a.Suffix, a.Size), (a.TranscodedSuffix, 0)]

/-- Loop body over one transcode variant (streaming variant lines
167-217): an empty suffix is skipped; a zero size marks the variant lossy
and replaces the size by the MP3-CBR-320 estimate
`((a.DurationRaw * 320) / 8) * 1024` (Go `int64` division truncates, which
is `Int.tdiv`); the sanitized formatted name is emitted as an entry and
registered in `nameToFile`. -/
def audioVariantStep (a : AudioItem) (acc : ListAcc) (t : Name × Int) : ListAcc :=
  if t.1 = [] then acc
  else
    let sz := if t.2 = 0 then ((a.DurationRaw * 320).tdiv 8) * 1024 else t.2
    let lossless := if t.2 = 0 then false else true
    let nm := sanitizeName (audioFormatRaw a t.1)
    { st := insertFile acc.st nm ⟨a.ID, a.Created, nm, false, false, lossless, sz⟩
      entries := acc.entries ++ [⟨nm, .dtFile⟩]
      coverArt := addCover a.CoverArt acc.coverArt }

/-- Loop body over `content.Audio`: both variants in order. -/
def audioStep (acc : ListAcc) (a : AudioItem) : ListAcc :=
  (transcodeVariants a).foldl (audioVariantStep a) acc

/-- Loop body over `content.Video` (streaming variant lines 221-252). -/
def videoStep (acc : ListAcc) (v : VideoItem) : ListAcc :=
  let nm := sanitizeName (v.Title ++ '.' :: v.Suffix)
  { st := insertFile acc.st nm ⟨v.ID, v.Created, nm, false, true, false, v.Size⟩
    entries := acc.entries ++ [⟨nm, .dtFile⟩]
    coverArt := addCover v.CoverArt acc.coverArt }

/-- The `".jpg"` suffix of synthesized cover-art names. -/
def jpgSuffix : Name := ['.', 'j', 'p', 'g']

/-- Loop body over the collected cover-art ids (streaming variant lines
255-273): name `<id>.jpg`, registered as an art `SubFile` with zero-value
remaining fields. -/
def artStep (acc : ListAcc) (c : Int) : ListAcc :=
  let nm := intChars c ++ jpgSuffix
  { st := insertFile acc.st nm ⟨c, 0, nm, true, false, false, 0⟩
    entries := acc.entries ++ [⟨nm, .dtFile⟩]
    coverArt := acc.coverArt }

/-- The non-root branch of `SubDir.ReadDir` applied to an already fetched
`GetMusicDirectory` response (streaming variant lines 94-277): the four
loops in source order, threading the global tables. -/
def listDirectory (parent : SubDir) (content : MusicDirContent) (st : FSState) :
    FSState × List Dirent :=
  let acc0 : ListAcc := ⟨st, [], []⟩
  let acc1 := content.Directories.foldl (dirStep parent) acc0
  let acc2 := content.Audio.foldl audioStep acc1
  let acc3 := content.Video.foldl videoStep acc2
  let acc4 := acc3.coverArt.foldl artStep acc3
  (acc4.st, acc4.entries)

/-- Loop body over the artists of one index (root branch of `ReadDir`):
the artist name is registered as a directory without sanitisation. -/
def rootStep (acc : FSState × List Dirent) (a : ArtistRec) : FSState × List Dirent :=
  (insertDir acc.1 a.ArtName ⟨a.ID, []⟩, acc.2 ++ [⟨a.ArtName, .dtDir⟩])

/-- The root branch of `SubDir.ReadDir` over a fetched index list. -/
def listRoot (index : List IndexEntry) (st : FSState) : FSState × List Dirent :=
  index.foldl (fun acc i => i.Artist.foldl rootStep acc) (st, [])

/-- The non-root branch of `SubDir.ReadDir` including the upstream call:
a failed `GetMusicDirectory` is logged and surfaced as `fuse.ENOENT`
(streaming variant lines 96-100). -/
def readDirSub (parent : SubDir) (upstream : Except Unit MusicDirContent) (st : FSState) :
    Except FuseErr (FSState × List Dirent) :=
  match upstream with
  | .error _ => .error .enoent
  | .ok content => .ok (listDirectory parent content st)

/-! ### Predicates used by the theorems -/

/-- A name is a legal single path segment: it contains no path
separator. -/
def cleanSeg (n : Name) : Prop :=
  '/' ∉ n ∧ '\\' ∉ n

/-- Every entry emitted so far and every lookup-table binding changed
since table state `st0` carries a separator-free name. -/
def CleanAcc (st0 : FSState) (acc : ListAcc) : Prop :=
  (∀ e ∈ acc.entries, cleanSeg e.EntName) ∧
  (∀ n, acc.st.nameToDir n ≠ st0.nameToDir n → cleanSeg n) ∧
  (∀ n, acc.st.nameToFile n ≠ st0.nameToFile n → cleanSeg n)

/-- Keys of an association list. -/
def keysOf {κ ν : Type} (l : List (κ × ν)) : List κ :=
  l.map Prod.fst

/-- The cache-accounting invariant: the usage counter equals the summed
realized sizes of the entries, stays within the byte budget `B`, keys are
unique, and every entry holds the (nonnegative) size `sz` of its name. -/
def CacheInv (sz : Name → Int) (B : Int) (st : CacheState) : Prop :=
  st.total = entriesSum st.entries ∧
  st.total ≤ B ∧
  (keysOf st.entries).Nodup ∧
  ∀ e ∈ st.entries, e.2 = sz e.1 ∧ 0 ≤ e.2

/-- A `ReadAll` call whose declared size (the `Size` registered in
`nameToFile`) and realized size (the byte count the stream produced)
agree and are nonnegative, both given by `sz`. -/
def opUses (sz : Name → Int) : CacheOp → Prop
  | .read n d r _ _ => d = sz n ∧ r = sz n ∧ 0 ≤ r

/-- A `ReadAll` call whose declared size is nonnegative (no constraint
at all on the realized size). -/
def opDeclaredNonneg : CacheOp → Prop
  | .read _ d _ _ _ => 0 ≤ d

/-! ### Concrete sample data -/

/-- Freshly initialised lookup tables (src/subfs.go lines 67-69). -/
def emptyFS : FSState :=
  ⟨fun _ => none, fun _ => none⟩

/-- An empty `ReadDir` loop state over fresh tables. -/
def emptyAcc : ListAcc :=
  ⟨emptyFS, [], []⟩

/-- A parent directory `A/`. -/
def sampleParentA : SubDir := ⟨1, ['A', '/']⟩

/-- A listing holding the single sub-directory `x` with id 5. -/
def contentWithX : MusicDirContent := ⟨[⟨5, ['x'], 0⟩], [], []⟩

/-- An empty listing. -/
def contentEmptyDir : MusicDirContent := ⟨[], [], []⟩

/-- Tables after listing `contentWithX` under `A/`. -/
def genOneFS : FSState :=
  (listDirectory sampleParentA contentWithX emptyFS).1

/-- Tables after a second listing (of an unrelated, empty directory):
the spec would have the first generation gone now. -/
def genTwoFS : FSState :=
  (listDirectory ⟨2, ['B', '/']⟩ contentEmptyDir genOneFS).1

/-- A listing holding one sub-directory whose title `a/b` contains a
path separator. -/
def slashDirContent : MusicDirContent := ⟨[⟨5, ['a', '/', 'b'], 0⟩], [], []⟩

/-- An audio track: id 4, track 1, artist `B`, title `t`, raw suffix
`flac` of size 999, transcoded suffix `mp3`, duration 180 seconds. -/
def sampleAudio : AudioItem :=
  ⟨4, 0, 1, ['B'], ['t'], ['f', 'l', 'a', 'c'], ['m', 'p', '3'], 999, 180, 0⟩

/-- Two `ReadAll` calls on a file declared at 1000 bytes whose stream
realizes only 500 bytes: the first admits it to the cache, the second
finds the backing file vanished and evicts it. -/
def mismatchOps : List CacheOp :=
  [.read ['a'] 1000 500 true false, .read ['a'] 1000 500 true true]

/-- Tables holding both a directory and a file under the name `n`. -/
def clashFS : FSState :=
  insertFile (insertDir emptyFS ['n'] ⟨9, []⟩) ['n'] ⟨8, 0, ['n'], false, false, false, 0⟩

/-! ### Generic helper lemmas -/

theorem foldl_pres {α β : Type} (P : α → Prop) (Q : β → Prop) (f : α → β → α)
    (hf : ∀ a b, Q b → P a → P (f a b)) :
    ∀ (l : List β) (a : α), (∀ b ∈ l, Q b) → P a → P (l.foldl f a) := by
  intro l
  induction l with
  | nil => intro a _ h; simpa using h
  | cons b t ih =>
    intro a hq h
    simp only [List.foldl_cons]
    exact ih _ (fun x hx => hq x (List.mem_cons_of_mem _ hx))
      (hf a b (hq b (List.mem_cons_self _ _)) h)

theorem lookupA_eq_none_iff {κ ν : Type} [DecidableEq κ] (l : List (κ × ν)) (k : κ) :
    lookupA l k = none ↔ k ∉ keysOf l := by
  induction l with
  | nil => simp [lookupA, keysOf]
  | cons e t ih =>
    simp only [lookupA, keysOf, List.map_cons, List.mem_cons, not_or]
    by_cases h : e.1 = k
    · simp [h]
    · rw [if_neg h]
      simp only [keysOf] at ih
      rw [ih]
      exact ⟨fun ht => ⟨fun hk => h hk.symm, ht⟩, fun hp => hp.2⟩

theorem lookupA_mem {κ ν : Type} [DecidableEq κ] {l : List (κ × ν)} {k : κ} {v : ν}
    (h : lookupA l k = some v) : (k, v) ∈ l := by
  induction l with
  | nil => simp [lookupA] at h
  | cons e t ih =>
    by_cases he : e.1 = k
    · simp only [lookupA, if_pos he] at h
      have : e = (k, v) := by
        obtain ⟨e1, e2⟩ := e
        simp only at he
        cases he
        cases h
        rfl
      exact this ▸ List.mem_cons_self _ _
    · simp only [lookupA, if_neg he] at h
      exact List.mem_cons_of_mem _ (ih h)

theorem eraseA_of_not_mem {κ ν : Type} [DecidableEq κ] {l : List (κ × ν)} {k : κ}
    (h : k ∉ keysOf l) : eraseA l k = l := by
  induction l with
  | nil => rfl
  | cons e t ih =>
    simp only [keysOf, List.map_cons, List.mem_cons, not_or] at h
    simp only [eraseA, List.filter_cons, decide_eq_true_eq]
    rw [if_pos (show e.1 ≠ k from fun he => h.1 he.symm)]
    exact congrArg _ (ih (by simpa [keysOf] using h.2))

theorem mem_of_mem_eraseA {κ ν : Type} [DecidableEq κ] {l : List (κ × ν)} {k : κ}
    {e : κ × ν} (h : e ∈ eraseA l k) : e ∈ l :=
  List.mem_of_mem_filter h

theorem keysOf_eraseA_sublist {κ ν : Type} [DecidableEq κ] (l : List (κ × ν)) (k : κ) :
    (keysOf (eraseA l k)).Sublist (keysOf l) :=
  (List.filter_sublist l).map Prod.fst

theorem not_mem_keysOf_eraseA {κ ν : Type} [DecidableEq κ] (l : List (κ × ν)) (k : κ) :
    k ∉ keysOf (eraseA l k) := by
  intro h
  simp only [keysOf, List.mem_map] at h
  obtain ⟨e, he, hek⟩ := h
  simp only [eraseA, List.mem_filter, decide_eq_true_eq] at he
  exact he.2 hek

theorem entriesSum_cons (e : Name × Int) (t : List (Name × Int)) :
    entriesSum (e :: t) = e.2 + entriesSum t := by
  simp [entriesSum]

theorem entriesSum_eraseA {l : List (Name × Int)} {k : Name} {v : Int}
    (hnd : (keysOf l).Nodup) (hmem : (k, v) ∈ l) :
    entriesSum (eraseA l k) = entriesSum l - v := by
  induction l with
  | nil => simp at hmem
  | cons e t ih =>
    simp only [keysOf, List.map_cons, List.nodup_cons] at hnd
    rcases List.mem_cons.mp hmem with he | ht
    · subst he
      simp only [eraseA, List.filter_cons, decide_eq_true_eq]
      rw [if_neg (show ¬ ((k, v).1 ≠ k) from fun hne => hne rfl)]
      rw [show (List.filter (fun e => decide (e.1 ≠ k)) t) = eraseA t k from rfl,
        eraseA_of_not_mem (by simpa [keysOf] using hnd.1), entriesSum_cons]
      ring
    · have hkt : k ∈ t.map Prod.fst := List.mem_map.mpr ⟨(k, v), ht, rfl⟩
      have hek : e.1 ≠ k := fun h => hnd.1 (h ▸ hkt)
      simp only [eraseA, List.filter_cons, decide_eq_true_eq]
      rw [if_pos hek]
      rw [show (List.filter (fun e => decide (e.1 ≠ k)) t) = eraseA t k from rfl]
      rw [entriesSum_cons, entriesSum_cons, ih (by simpa [keysOf] using hnd.2) ht]
      ring

/-! ### C1: cache admission and the entry left behind by `fetchFile` -/

/-- C1 (counterexample): on the streaming `fetchFile` path, an empty
cache with a 100 MB budget receives a file whose realized size is 51 MB.
The 50 MB per-item ceiling fails, so the content must not be cached - yet
after the run the `fileCache` map still holds an entry for the id (its
backing file deleted) while the usage counter is unchanged, contradicting
the claim that no cache entry is created when an admission condition
fails. -/
theorem fetchFile_skip_leaves_cache_entry :
    lookupA (fetchFileFetch 100 7 (51 * 1024 * 1024) ⟨[], 0⟩).entries 7 =
      some ⟨false, 51 * 1024 * 1024⟩ ∧
    (fetchFileFetch 100 7 (51 * 1024 * 1024) ⟨[], 0⟩).total = 0 ∧
    (51 * 1024 * 1024 : Int) > 50 * 1024 * 1024 := by
  decide

/-- C1 (amended): in the `ReadAll` implementation admission happens
exactly when the usage is within the budget, the usage plus the realized
size stays within the budget, the realized size is at most 50 MB and the
temp-file write succeeds, and a refused admission leaves the state
untouched (the checks precede the temp-file creation); in the streaming
`fetchFile` implementation the map entry exists either way - a refused
admission merely deletes the backing file from disk and leaves the usage
counter alone. -/
theorem cache_admission_characterization (cs : Int) (n : Name) (r : Int) (ioOk : Bool)
    (st : CacheState) (cid : Int) (stf : FFState) :
    (st.total ≤ cs * 1024 * 1024 → st.total + r ≤ cs * 1024 * 1024 →
      r ≤ 50 * 1024 * 1024 → ioOk = true →
      cacheAdmit cs n r ioOk st = ⟨insertA st.entries n r, st.total + r⟩) ∧
    (¬ (st.total ≤ cs * 1024 * 1024 ∧ st.total + r ≤ cs * 1024 * 1024 ∧
        r ≤ 50 * 1024 * 1024 ∧ ioOk = true) →
      cacheAdmit cs n r ioOk st = st) ∧
    (stf.total > cs * 1024 * 1024 ∨ stf.total + r > cs * 1024 * 1024 ∨
        r > 50 * 1024 * 1024 →
      fetchFileFetch cs cid r stf = ⟨insertA stf.entries cid ⟨false, r⟩, stf.total⟩) ∧
    (¬ (stf.total > cs * 1024 * 1024 ∨ stf.total + r > cs * 1024 * 1024 ∨
        r > 50 * 1024 * 1024) →
      fetchFileFetch cs cid r stf = ⟨insertA stf.entries cid ⟨true, r⟩, stf.total + r⟩) := by
  refine ⟨?_, ?_, ?_, ?_⟩
  · intro h1 h2 h3 h4
    unfold cacheAdmit
    rw [if_neg (by omega), if_neg (by omega), if_neg (by omega), h4, if_pos rfl]
  · intro h
    unfold cacheAdmit
    split_ifs with h1 h2 h3 h4
    · rfl
    · rfl
    · rfl
    · exact absurd ⟨by omega, by omega, by omega, h4⟩ h
    · rfl
  · intro h
    unfold fetchFileFetch
    rw [if_pos h]
  · intro h
    unfold fetchFileFetch
    rw [if_neg h]

/-- C1 (witness): a 5-byte file admitted into an empty cache with a
100 MB budget. -/
theorem cache_admission_characterization_witness :
    cacheAdmit 100 ['a'] 5 true ⟨[], 0⟩ = ⟨[(['a'], 5)], 5⟩ ∧
    fetchFileFetch 100 7 (51 * 1024 * 1024) ⟨[], 0⟩ =
      ⟨[(7, ⟨false, 51 * 1024 * 1024⟩)], 0⟩ := by
  have h1 := cache_admission_characterization 100 ['a'] 5 true ⟨[], 0⟩ 7 ⟨[], 0⟩
  have h2 :=
    cache_admission_characterization 100 ['a'] (51 * 1024 * 1024) true ⟨[], 0⟩ 7 ⟨[], 0⟩
  refine ⟨(h1.1 (by norm_num) (by norm_num) (by norm_num) rfl).trans (by decide),
    (h2.2.2.1 (by right; right; norm_num)).trans (by decide)⟩

/-! ### C2: the usage counter against the sum of entry sizes -/

/-- C2 (counterexample): a file declared at 1000 bytes realizes 500 bytes
on fetch; admission adds 500 to the counter, but the later lazy eviction
subtracts the declared 1000 and the same call re-admits the 500-byte
fetch, leaving the counter at 0 while the sum of the entry sizes is 500 -
so the counter does not equal the sum, and eviction did not subtract the
size that admission added. -/
theorem cache_usage_counter_mismatch :
    (runCache 100 mismatchOps).entries = [(['a'], 500)] ∧
    entriesSum (runCache 100 mismatchOps).entries = 500 ∧
    (runCache 100 mismatchOps).total = 0 ∧
    (0 : Int) ≠ 500 := by
  decide

theorem cacheAdmit_inv {sz : Name → Int} {B : Int} (cs : Int) (n : Name) (r : Int)
    (ioOk : Bool) {st : CacheState} (hB : B = cs * 1024 * 1024)
    (habs : lookupA st.entries n = none) (hr : r = sz n) (hnn : 0 ≤ r)
    (hinv : CacheInv sz B st) : CacheInv sz B (cacheAdmit cs n r ioOk st) := by
  subst hB
  obtain ⟨hsum, hle, hnd, hall⟩ := hinv
  unfold cacheAdmit
  split_ifs with h1 h2 h3 h4
  · exact ⟨hsum, hle, hnd, hall⟩
  · exact ⟨hsum, hle, hnd, hall⟩
  · exact ⟨hsum, hle, hnd, hall⟩
  · have hnotin : n ∉ keysOf st.entries := (lookupA_eq_none_iff _ _).mp habs
    have herase : eraseA st.entries n = st.entries := eraseA_of_not_mem hnotin
    refine ⟨?_, show st.total + r ≤ cs * 1024 * 1024 by omega, ?_, ?_⟩
    · simp only [insertA, herase, entriesSum_cons, hsum]
      ring
    · simp only [insertA, herase, keysOf, List.map_cons, List.nodup_cons]
      exact ⟨hnotin, hnd⟩
    · intro e he
      simp only [insertA, herase, List.mem_cons] at he
      rcases he with he | he
      · subst he
        exact ⟨hr, hnn⟩
      · exact hall e he
  · exact ⟨hsum, hle, hnd, hall⟩

theorem cacheStep_inv {sz : Name → Int} (cs : Int) {st : CacheState} {op : CacheOp}
    (hop : opUses sz op) (hinv : CacheInv sz (cs * 1024 * 1024) st) :
    CacheInv sz (cs * 1024 * 1024) (cacheStep cs st op) := by
  obtain ⟨n, d, r, ioOk, missing⟩ := op
  obtain ⟨hd, hr, hnn⟩ := hop
  simp only [cacheStep]
  cases hl : lookupA st.entries n with
  | none => exact cacheAdmit_inv cs n r ioOk rfl hl hr hnn hinv
  | some v =>
    cases missing with
    | false => simpa using hinv
    | true =>
      rw [if_pos rfl]
      obtain ⟨hsum, hle, hnd, hall⟩ := hinv
      have hmem : (n, v) ∈ st.entries := lookupA_mem hl
      have hv : v = sz n ∧ 0 ≤ v := by
        have := hall _ hmem
        exact ⟨this.1, this.2⟩
      have hinv2 : CacheInv sz (cs * 1024 * 1024) (cacheEvict n d st) := by
        refine ⟨?_, ?_, ?_, ?_⟩
        · simp only [cacheEvict, entriesSum_eraseA hnd hmem, hsum]
          omega
        · simp only [cacheEvict]
          omega
        · exact hnd.sublist (keysOf_eraseA_sublist _ _)
        · exact fun e he => hall e (mem_of_mem_eraseA he)
      have habs2 : lookupA (cacheEvict n d st).entries n = none :=
        (lookupA_eq_none_iff _ _).mpr (not_mem_keysOf_eraseA _ _)
      exact cacheAdmit_inv cs n r ioOk rfl habs2 hr hnn hinv2

theorem cacheAdmit_total_le (cs : Int) (n : Name) (r : Int) (ioOk : Bool)
    (st : CacheState) (h : st.total ≤ cs * 1024 * 1024) :
    (cacheAdmit cs n r ioOk st).total ≤ cs * 1024 * 1024 := by
  unfold cacheAdmit
  split_ifs with h1 h2 h3 h4
  · exact h
  · exact h
  · exact h
  · show st.total + r ≤ cs * 1024 * 1024
    omega
  · exact h

theorem cacheStep_total_le (cs : Int) {st : CacheState} {op : CacheOp}
    (hop : opDeclaredNonneg op) (h : st.total ≤ cs * 1024 * 1024) :
    (cacheStep cs st op).total ≤ cs * 1024 * 1024 := by
  obtain ⟨n, d, r, ioOk, missing⟩ := op
  have hd : (0 : Int) ≤ d := hop
  simp only [cacheStep]
  cases hl : lookupA st.entries n with
  | none => exact cacheAdmit_total_le cs n r ioOk st h
  | some v =>
    cases missing with
    | false => simpa using h
    | true =>
      rw [if_pos rfl]
      apply cacheAdmit_total_le
      show st.total - d ≤ cs * 1024 * 1024
      omega

/-- C2 (amended): the two conjuncts hold under different provisos.  The
budget bound is unconditional on sizes matching: as long as every call's
declared size is nonnegative, the usage counter never exceeds the
configured budget after any admission decision (a granted admission is
guarded by usage + realized size against the budget, a refusal leaves
the counter unchanged, and lazy eviction only decreases it).  The
counter equals the sum of the sizes of the current cache entries only
when every call's declared size agrees with its realized size (one
consistent nonnegative size per name, given by `sz`): lazy eviction
subtracts the evicting call's declared size, which equals the size
admission added only under that agreement - without it the equality
fails (see the counterexample). -/
theorem cache_usage_invariant (cs : Int) (sz : Name → Int) (ops : List CacheOp)
    (hcs : 0 ≤ cs) :
    ((∀ op ∈ ops, opDeclaredNonneg op) →
      (runCache cs ops).total ≤ cs * 1024 * 1024) ∧
    ((∀ op ∈ ops, opUses sz op) →
      (runCache cs ops).total = entriesSum (runCache cs ops).entries) := by
  constructor
  · intro hops
    have h0 : (⟨[], 0⟩ : CacheState).total ≤ cs * 1024 * 1024 := by
      show (0 : Int) ≤ cs * 1024 * 1024
      positivity
    exact foldl_pres (fun st : CacheState => st.total ≤ cs * 1024 * 1024)
      opDeclaredNonneg (cacheStep cs) (fun a b hb ha => cacheStep_total_le cs hb ha)
      ops ⟨[], 0⟩ hops h0
  · intro hops
    have h0 : CacheInv sz (cs * 1024 * 1024) ⟨[], 0⟩ := by
      refine ⟨by simp [entriesSum], by positivity, by simp [keysOf], by simp⟩
    exact (foldl_pres (CacheInv sz (cs * 1024 * 1024)) (opUses sz) (cacheStep cs)
      (fun a b hb ha => cacheStep_inv cs hb ha) ops ⟨[], 0⟩ hops h0).1

/-- C2 (witness): the budget bound holds even on the mismatched-size run
of the counterexample (declared 1000, realized 500), and the
counter-equals-sum equality holds on a run whose declared and realized
sizes agree. -/
theorem cache_usage_invariant_witness :
    (runCache 100 mismatchOps).total ≤ 100 * 1024 * 1024 ∧
    (runCache 100 [.read ['a'] 7 7 true false]).total =
      entriesSum (runCache 100 [.read ['a'] 7 7 true false]).entries := by
  have h1 := cache_usage_invariant 100 (fun _ => 7) mismatchOps (by norm_num)
  have h2 := cache_usage_invariant 100 (fun _ => 7) [.read ['a'] 7 7 true false]
    (by norm_num)
  refine ⟨h1.1 ?_, h2.2 ?_⟩
  · intro op hop
    simp only [mismatchOps, List.mem_cons] at hop
    rcases hop with rfl | rfl | h
    · exact (by norm_num : (0 : Int) ≤ 1000)
    · exact (by norm_num : (0 : Int) ≤ 1000)
    · exact absurd h (List.not_mem_nil _)
  · intro op hop
    simp only [List.mem_singleton] at hop
    subst hop
    exact ⟨rfl, rfl, by norm_num⟩

/-! ### C3: the broadcast reaches only one waiter -/

/-- C3: with two waiters joined on `streamMap[s.ID]` while one fetch is
in flight, the fetcher performs exactly one send and then closes the
channel, so the first waiter receives the fetched bytes and the second
receives `nil` from the closed channel - not the identical content the
claim promises every waiter, even though the code's own comment says
multiple clients can receive the stream. -/
theorem fanout_second_waiter_gets_nil :
    fanOutToWaiters [9, 9] 2 = [some [9, 9], none] ∧
    ¬ ∀ w ∈ fanOutToWaiters [9, 9] 2, w = some [9, 9] := by
  decide

/-! ### C7: how remote failures surface -/

/-- C7 (counterexample): when opening or reading the upstream stream
fails, `ReadAll` returns `nil` bytes with a `nil` error - the request is
degraded, but it is not surfaced as NotFound as the claim states. -/
theorem stream_failure_not_enoent :
    readAllOutcome (.error ()) false = (none, none) ∧
    (readAllOutcome (.error ()) false).2 ≠ some FuseErr.enoent := by
  decide

/-- C7 (amended): a failed upstream listing surfaces as NotFound for that
single `ReadDir` call, while a failed content stream surfaces as a nil
read result with no error; in both cases the failure is handled inside
the request and the serving process continues. -/
theorem remote_failure_degrades_request (parent : SubDir) (st : FSState) (e : Unit) :
    readDirSub parent (.error e) st = .error .enoent ∧
    readAllOutcome (.error e) false = (none, none) := by
  exact ⟨rfl, rfl⟩

/-! ### C8: cancellation and the abandoned background fetch -/

/-- C8 (counterexample): after the caller of `ReadAll` is interrupted,
the background goroutine still completes the network fetch but then
parks forever on the unbuffered `byteChan` send, so the cache-admission
step is never executed - contradicting the claim that the fetch continues
to completion for the benefit of the cache and of other callers. -/
theorem cancelled_readAll_never_caches :
    BgStep.admitCache ∉ runBg false readAllBg ∧
    BgStep.broadcast ∉ runBg false readAllBg ∧
    BgStep.fetchStream ∈ runBg false readAllBg := by
  decide

/-- C8 (amended): an interrupt while suspended makes the call return
`EINTR` whatever the fetch produces, and the originated fetch is not
aborted - the upstream stream is still read to completion.  In the
`ReadAll` implementation, however, the goroutine then blocks on the
result send, so neither broadcast nor cache admission run; only in the
streaming `fetchFile` implementation does the background download
proceed through cache admission. -/
theorem cancellation_behavior (r : Except Unit Bytes) :
    readAllOutcome r true = (none, some .eintr) ∧
    runBg false readAllBg = [.fetchStream] ∧
    runBg false fetchFileBg = [.fetchStream, .admitCache] ∧
    runBg true readAllBg = readAllBg := by
  exact ⟨rfl, by decide, by decide, by decide⟩

/-! ### C9: the unmount retry loop -/

/-- C9: the shutdown unmount loop performs the initial attempt plus up to
`retry = 3` retries, sleeping three seconds before every attempt after
the first.  If attempts 1 and 2 fail and attempt 3 succeeds the loop
breaks and the process goes on to exit 0 (having waited twice); if all
four attempts fail, `os.Exit(1)` runs. -/
theorem unmount_retry_exit_codes (ok : Nat → Bool) :
    (ok 0 = false → ok 1 = false → ok 2 = true → unmountOutcome ok = (true, 2)) ∧
    (ok 0 = false → ok 1 = false → ok 2 = false → ok 3 = false →
      (unmountOutcome ok).1 = false) := by
  constructor
  · intro h0 h1 h2
    simp [unmountOutcome, unmountGo, unmountRetry, h0, h1, h2]
  · intro h0 h1 h2 h3
    simp [unmountOutcome, unmountGo, unmountRetry, h0, h1, h2, h3]

/-- C9 (witness): failure on the first two attempts, success on the
third; and total failure. -/
theorem unmount_retry_exit_codes_witness :
    unmountOutcome (fun i => decide (i = 2)) = (true, 2) ∧
    (unmountOutcome (fun _ => false)).1 = false :=
  ⟨(unmount_retry_exit_codes _).1 rfl rfl rfl,
   (unmount_retry_exit_codes _).2 rfl rfl rfl rfl⟩

/-! ### C10: directory table shadows file table in `Lookup` -/

/-- C10: `Lookup` consults `nameToDir` before `nameToFile`, so a name
bound in both tables resolves to the directory node (with its relative
path rewritten to `name + "/"`), and the file bound under the same name
is unreachable through `Lookup`. -/
theorem lookup_prefers_directory (st : FSState) (n : Name) (d : SubDir) (f : SubFile)
    (hd : st.nameToDir n = some d) (_hf : st.nameToFile n = some f) :
    lookupName st n = .dir ⟨d.ID, n ++ ['/']⟩ ∧
    ∀ g : SubFile, lookupName st n ≠ .file g := by
  unfold lookupName
  rw [hd]
  exact ⟨rfl, fun g h => by cases h⟩

/-- C10 (witness): tables binding the name `n` to both a directory (id 9)
and a file (id 8). -/
theorem lookup_prefers_directory_witness :
    lookupName clashFS ['n'] = .dir ⟨9, ['n', '/']⟩ ∧
    ∀ g : SubFile, lookupName clashFS ['n'] ≠ .file g :=
  lookup_prefers_directory clashFS ['n'] ⟨9, []⟩ ⟨8, 0, ['n'], false, false, false, 0⟩
    (by decide) (by decide)

/-! ### C4: the transcode size estimate -/

theorem tdiv_estimate_eq (d : Int) :
    ((d * 320).tdiv 8) * 1024 = d * 320 * 1024 / 8 := by
  have h1 : (d * 320).tdiv 8 = d * 40 := by
    rw [show d * 320 = d * 40 * 8 by ring, Int.mul_tdiv_cancel _ (by norm_num)]
  have h2 : d * 320 * 1024 / 8 = d * 40 * 1024 := by
    rw [show d * 320 * 1024 = d * 40 * 1024 * 8 by ring, Int.mul_ediv_cancel _ (by norm_num)]
  rw [h1, h2]

/-- C4: processing an audio track whose transcoded variant exists (its
suffix is nonempty; its size is always reported as 0, hence estimated)
registers a `SubFile` whose size is exactly
`duration_seconds * 320 * 1024 / 8` bytes - the code's
`((DurationRaw * 320) / 8) * 1024` with truncating `int64` division
agrees with that expression for every duration, because both divisions
are exact. -/
theorem transcode_size_estimate (acc : ListAcc) (a : AudioItem)
    (h : a.TranscodedSuffix ≠ []) :
    (audioStep acc a).st.nameToFile (sanitizeName (audioFormatRaw a a.TranscodedSuffix)) =
      some ⟨a.ID, a.Created, sanitizeName (audioFormatRaw a a.TranscodedSuffix),
        false, false, false, a.DurationRaw * 320 * 1024 / 8⟩ := by
  have hE : ((a.DurationRaw * 320).tdiv 8) * 1024 = a.DurationRaw * 320 * 1024 / 8 :=
    tdiv_estimate_eq _
  simp [audioStep, transcodeVariants, audioVariantStep, insertFile, h, hE]

/-- C4 (witness): the sample track of duration 180 seconds yields the
estimate `7372800`. -/
theorem transcode_size_estimate_witness :
    (audioStep emptyAcc sampleAudio).st.nameToFile
        (sanitizeName (audioFormatRaw sampleAudio sampleAudio.TranscodedSuffix)) =
      some ⟨4, 0, sanitizeName (audioFormatRaw sampleAudio sampleAudio.TranscodedSuffix),
        false, false, false, 7372800⟩ :=
  (transcode_size_estimate emptyAcc sampleAudio (by decide)).trans (by decide)

/-! ### C6: lookup tables accumulate across listings -/

/-- C6 (counterexample): directory `x` (id 5) is registered by listing
its parent; afterwards an unrelated, empty directory is listed.  Were the
tables rebuilt per listing, `Lookup("x")` would now return NotFound - but
the global tables are never cleared, so the lookup still resolves to the
directory node. -/
theorem lookup_finds_stale_generation_entry :
    lookupName genTwoFS ['x'] = .dir ⟨5, ['x', '/']⟩ ∧
    lookupName genTwoFS ['x'] ≠ .notFound := by
  decide

theorem listDirectory_tables_mono (parent : SubDir) (content : MusicDirContent)
    (st : FSState) (n : Name) :
    ((st.nameToDir n).isSome → ((listDirectory parent content st).1.nameToDir n).isSome) ∧
    ((st.nameToFile n).isSome → ((listDirectory parent content st).1.nameToFile n).isSome) := by
  have hD : ∀ (s : FSState) (k : Name) (d : SubDir),
      (s.nameToDir n).isSome → ((insertDir s k d).nameToDir n).isSome := by
    intro s k d h
    show (if n = k then some d else s.nameToDir n).isSome
    split_ifs with hk
    · rfl
    · exact h
  have hF : ∀ (s : FSState) (k : Name) (f : SubFile),
      (s.nameToFile n).isSome → ((insertFile s k f).nameToFile n).isSome := by
    intro s k f h
    show (if n = k then some f else s.nameToFile n).isSome
    split_ifs with hk
    · rfl
    · exact h
  let P : ListAcc → Prop := fun acc =>
    ((st.nameToDir n).isSome → (acc.st.nameToDir n).isSome) ∧
    ((st.nameToFile n).isSome → (acc.st.nameToFile n).isSome)
  have pDir : ∀ acc x, P acc → P (dirStep parent acc x) := by
    intro acc x h
    exact ⟨fun hs => hD _ _ _ (h.1 hs), fun hs => h.2 hs⟩
  have pAV : ∀ (a : AudioItem) acc t, P acc → P (audioVariantStep a acc t) := by
    intro a acc t h
    unfold audioVariantStep
    split_ifs with ht
    · exact h
    all_goals exact ⟨fun hs => h.1 hs, fun hs => hF _ _ _ (h.2 hs)⟩
  have pA : ∀ acc a, P acc → P (audioStep acc a) := by
    intro acc a h
    exact foldl_pres P (fun _ => True) (audioVariantStep a)
      (fun x y _ hx => pAV a x y hx) _ acc (by simp) h
  have pV : ∀ acc v, P acc → P (videoStep acc v) := by
    intro acc v h
    exact ⟨fun hs => h.1 hs, fun hs => hF _ _ _ (h.2 hs)⟩
  have pArt : ∀ acc c, P acc → P (artStep acc c) := by
    intro acc c h
    exact ⟨fun hs => h.1 hs, fun hs => hF _ _ _ (h.2 hs)⟩
  have h0 : P ⟨st, [], []⟩ := ⟨id, id⟩
  have h1 := foldl_pres P (fun _ => True) (dirStep parent)
    (fun x y _ hx => pDir x y hx) content.Directories ⟨st, [], []⟩ (by simp) h0
  have h2 := foldl_pres P (fun _ => True) audioStep
    (fun x y _ hx => pA x y hx) content.Audio _ (by simp) h1
  have h3 := foldl_pres P (fun _ => True) videoStep
    (fun x y _ hx => pV x y hx) content.Video _ (by simp) h2
  have h4 := foldl_pres P (fun _ => True) artStep
    (fun x y _ hx => pArt x y hx)
    ((content.Video.foldl videoStep
      (content.Audio.foldl audioStep
        (content.Directories.foldl (dirStep parent) ⟨st, [], []⟩))).coverArt) _ (by simp) h3
  exact h4

/-- C6 (amended): the lookup tables are global and merged across
listings, not rebuilt: a directory listing only inserts or overwrites
bindings, so any name resolvable before a listing is still resolvable
afterwards - in particular `Lookup` of a name registered by an earlier
listing generation does not return NotFound. -/
theorem lookup_tables_accumulate (parent : SubDir) (content : MusicDirContent)
    (st : FSState) (n : Name) :
    ((st.nameToDir n).isSome → ((listDirectory parent content st).1.nameToDir n).isSome) ∧
    ((st.nameToFile n).isSome → ((listDirectory parent content st).1.nameToFile n).isSome) ∧
    ((st.nameToDir n).isSome → lookupName (listDirectory parent content st).1 n ≠ .notFound) := by
  obtain ⟨h1, h2⟩ := listDirectory_tables_mono parent content st n
  refine ⟨h1, h2, fun hs => ?_⟩
  have hx := h1 hs
  unfold lookupName
  cases hy : (listDirectory parent content st).1.nameToDir n with
  | none => rw [hy] at hx; simp at hx
  | some d => simp

/-- C6 (witness): the stale binding of `x` from the first listing still
resolves after the second listing. -/
theorem lookup_tables_accumulate_witness :
    lookupName (listDirectory ⟨2, ['B', '/']⟩ contentEmptyDir genOneFS).1 ['x'] ≠
      .notFound :=
  (lookup_tables_accumulate ⟨2, ['B', '/']⟩ contentEmptyDir genOneFS ['x']).2.2 (by decide)

/-! ### C5: sanitisation of listing names -/

theorem not_mem_replaceBad (s : Name) (b : Char) (hb : b ≠ '_') : b ∉ replaceBad s b := by
  intro h
  simp only [replaceBad, List.mem_map] at h
  obtain ⟨a, _, ha⟩ := h
  by_cases hab : a = b
  · rw [if_pos hab] at ha
    exact hb ha.symm
  · rw [if_neg hab] at ha
    exact hab ha

theorem mem_of_mem_replaceBad {s : Name} {b c : Char} (h : c ∈ replaceBad s b)
    (hc : c ≠ '_') : c ∈ s := by
  simp only [replaceBad, List.mem_map] at h
  obtain ⟨a, ha, hae⟩ := h
  by_cases hab : a = b
  · rw [if_pos hab] at hae
    exact absurd hae.symm hc
  · rw [if_neg hab] at hae
    exact hae ▸ ha

theorem sanitize_clean (s : Name) : cleanSeg (sanitizeName s) := by
  have hs : sanitizeName s = replaceBad (replaceBad s '/') '\\' := rfl
  constructor
  · intro h
    rw [hs] at h
    exact not_mem_replaceBad s '/' (by decide) (mem_of_mem_replaceBad h (by decide))
  · intro h
    rw [hs] at h
    exact not_mem_replaceBad _ '\\' (by decide) h

theorem digitChar_clean {m : Nat} (h : m < 10) :
    Nat.digitChar m ≠ '/' ∧ Nat.digitChar m ≠ '\\' := by
  interval_cases m <;> exact ⟨by decide, by decide⟩

theorem toDigitsCore_clean (fuel : Nat) : ∀ (n : Nat) (ds : Name),
    (∀ c ∈ ds, c ≠ '/' ∧ c ≠ '\\') →
    ∀ c ∈ Nat.toDigitsCore 10 fuel n ds, c ≠ '/' ∧ c ≠ '\\' := by
  induction fuel with
  | zero => intro n ds h c hc; exact h c hc
  | succ f ih =>
    intro n ds h c hc
    simp only [Nat.toDigitsCore] at hc
    have hds : ∀ x ∈ Nat.digitChar (n % 10) :: ds, x ≠ '/' ∧ x ≠ '\\' := by
      intro x hx
      rcases List.mem_cons.mp hx with h1 | h2
      · exact h1 ▸ digitChar_clean (Nat.mod_lt _ (by norm_num))
      · exact h x h2
    split_ifs at hc with hn
    · exact hds c hc
    · exact ih _ _ hds c hc

theorem natChars_clean (n : Nat) : ∀ c ∈ natChars n, c ≠ '/' ∧ c ≠ '\\' := by
  intro c hc
  exact toDigitsCore_clean (n + 1) n [] (by simp) c hc

theorem cleanSeg_of_chars {n : Name} (h : ∀ c ∈ n, c ≠ '/' ∧ c ≠ '\\') : cleanSeg n :=
  ⟨fun hm => (h _ hm).1 rfl, fun hm => (h _ hm).2 rfl⟩

theorem cleanSeg_append {a b : Name} (ha : cleanSeg a) (hb : cleanSeg b) :
    cleanSeg (a ++ b) :=
  ⟨fun h => (List.mem_append.mp h).elim ha.1 hb.1,
   fun h => (List.mem_append.mp h).elim ha.2 hb.2⟩

theorem intChars_clean (c : Int) : cleanSeg (intChars c) := by
  unfold intChars
  split_ifs with hc
  · apply cleanSeg_of_chars
    intro x hx
    rcases List.mem_cons.mp hx with h1 | h2
    · exact h1 ▸ ⟨by decide, by decide⟩
    · exact natChars_clean _ x h2
  · exact cleanSeg_of_chars (natChars_clean _)

theorem artName_clean (c : Int) : cleanSeg (intChars c ++ jpgSuffix) :=
  cleanSeg_append (intChars_clean c) ⟨by decide, by decide⟩

theorem cleanAcc_dirStep (st0 : FSState) (parent : SubDir) (acc : ListAcc)
    (x : MusicDirectory) (h : CleanAcc st0 acc) : CleanAcc st0 (dirStep parent acc x) := by
  obtain ⟨he, hd, hf⟩ := h
  refine ⟨?_, ?_, ?_⟩
  · intro e hm
    rcases List.mem_append.mp hm with h1 | h2
    · exact he e h1
    · simp only [List.mem_singleton] at h2
      subst h2
      exact sanitize_clean _
  · intro n hn
    by_cases ht : n = sanitizeName x.Title
    · exact ht ▸ sanitize_clean _
    · have hsame : (dirStep parent acc x).st.nameToDir n = acc.st.nameToDir n := by
        simp [dirStep, insertDir, ht]
      exact hd n (fun hEq => hn (hsame.trans hEq))
  · intro n hn
    exact hf n hn

theorem cleanAcc_insertFile (st0 : FSState) (acc : ListAcc) (nm : Name) (f : SubFile)
    (ent : DirentType) (ca : List Int) (hnm : cleanSeg nm) (h : CleanAcc st0 acc) :
    CleanAcc st0 ⟨insertFile acc.st nm f, acc.entries ++ [⟨nm, ent⟩], ca⟩ := by
  obtain ⟨he, hd, hf⟩ := h
  refine ⟨?_, fun n hn => hd n hn, ?_⟩
  · intro e hm
    rcases List.mem_append.mp hm with h1 | h2
    · exact he e h1
    · simp only [List.mem_singleton] at h2
      subst h2
      exact hnm
  · intro n hn
    by_cases hm : n = nm
    · exact hm ▸ hnm
    · have hsame : (insertFile acc.st nm f).nameToFile n = acc.st.nameToFile n := by
        simp [insertFile, hm]
      exact hf n (fun hEq => hn (hsame.trans hEq))

theorem cleanAcc_audioVariantStep (st0 : FSState) (a : AudioItem) (acc : ListAcc)
    (t : Name × Int) (h : CleanAcc st0 acc) : CleanAcc st0 (audioVariantStep a acc t) := by
  unfold audioVariantStep
  split_ifs with ht
  · exact h
  all_goals exact cleanAcc_insertFile st0 acc _ _ _ _ (sanitize_clean _) h

theorem cleanAcc_audioStep (st0 : FSState) (acc : ListAcc) (a : AudioItem)
    (h : CleanAcc st0 acc) : CleanAcc st0 (audioStep acc a) :=
  foldl_pres (CleanAcc st0) (fun _ => True) (audioVariantStep a)
    (fun x y _ hx => cleanAcc_audioVariantStep st0 a x y hx) _ acc (by simp) h

theorem cleanAcc_videoStep (st0 : FSState) (acc : ListAcc) (v : VideoItem)
    (h : CleanAcc st0 acc) : CleanAcc st0 (videoStep acc v) := by
  unfold videoStep
  exact cleanAcc_insertFile st0 acc _ _ _ _ (sanitize_clean _) h

theorem cleanAcc_artStep (st0 : FSState) (acc : ListAcc) (c : Int)
    (h : CleanAcc st0 acc) : CleanAcc st0 (artStep acc c) := by
  unfold artStep
  exact cleanAcc_insertFile st0 acc _ _ _ _ (artName_clean c) h

/-- C5: every directory entry returned by a directory listing, and every
binding the listing adds to `nameToDir` or `nameToFile`, carries a name
in which the path separators `/` and `\` were replaced by `_` - so every
registered name is a legal single path segment.  This covers the
sub-directory titles, the synthesized audio and video file names and the
synthesized cover-art names of the listing. -/
theorem listing_names_sanitized (parent : SubDir) (content : MusicDirContent)
    (st : FSState) :
    (∀ e ∈ (listDirectory parent content st).2, cleanSeg e.EntName) ∧
    (∀ n, (listDirectory parent content st).1.nameToDir n ≠ st.nameToDir n → cleanSeg n) ∧
    (∀ n, (listDirectory parent content st).1.nameToFile n ≠ st.nameToFile n → cleanSeg n) := by
  have h0 : CleanAcc st ⟨st, [], []⟩ :=
    ⟨by simp, fun n hn => absurd rfl hn, fun n hn => absurd rfl hn⟩
  have h1 := foldl_pres (CleanAcc st) (fun _ => True) (dirStep parent)
    (fun x y _ hx => cleanAcc_dirStep st parent x y hx)
    content.Directories ⟨st, [], []⟩ (by simp) h0
  have h2 := foldl_pres (CleanAcc st) (fun _ => True) audioStep
    (fun x y _ hx => cleanAcc_audioStep st x y hx) content.Audio _ (by simp) h1
  have h3 := foldl_pres (CleanAcc st) (fun _ => True) videoStep
    (fun x y _ hx => cleanAcc_videoStep st x y hx) content.Video _ (by simp) h2
  have h4 := foldl_pres (CleanAcc st) (fun _ => True) artStep
    (fun x y _ hx => cleanAcc_artStep st x y hx)
    ((content.Video.foldl videoStep
      (content.Audio.foldl audioStep
        (content.Directories.foldl (dirStep parent) ⟨st, [], []⟩))).coverArt)
    _ (by simp) h3
  exact ⟨h4.1, h4.2.1, h4.2.2⟩

/-- C5 (witness): the catalog title `a/b` is listed as the sanitized
directory entry `a_b`, a legal path segment. -/
theorem listing_names_sanitized_witness : cleanSeg ['a', '_', 'b'] :=
  (listing_names_sanitized sampleParentA slashDirContent emptyFS).1
    ⟨['a', '_', 'b'], .dtDir⟩ (by decide)

end Subfs
